import Mathlib

/-
Verification of the provider-grafana reconciliation core.

The Go source is shallowly embedded: JSON-like dynamic values
(`interface\x7b\x7d` trees produced by unmarshalling) become the inductive
`GoVal`; Go maps become association lists carrying an iteration order
(Go's map iteration order is unspecified, so any list order is a possible
execution); fallible code returns `Except`/`Option`; a Go runtime panic
(nil `reflect.Type` dereference, failing type assertion, impossible
`reflect.Value.Convert`) is the explicit result `CmpResult.crash`.
-/

/-- Fundamental kinds of the dynamic values handled by the comparator in
`internal/controller/common/utils.go` (reflect types, collapsed to the
kinds that occur in unmarshalled JSON payloads). -/
inductive GoKind where
  | kbool
  | kint
  | kfloat
  | kstring
  | kmap
  | kslice
deriving DecidableEq

/-- A semi-structured dynamic value: the Go `interface\x7b\x7d` trees the
comparator receives. `vNull` is a nil interface value; `vMap` is a
`map[string]interface\x7b\x7d` given with an iteration order; `vFloat`
models `float64` by its exact rational value. -/
inductive GoVal where
  | vNull : GoVal
  | vBool : Bool → GoVal
  | vInt : Int → GoVal
  | vFloat : Rat → GoVal
  | vStr : String → GoVal
  | vSlice : List GoVal → GoVal
  | vMap : List (String × GoVal) → GoVal

/-- `reflect.TypeOf` of the value held in an interface: `none` for a nil
interface (Go returns a nil `reflect.Type`, and calling any method on it
panics). -/
def kindOf : GoVal → Option GoKind
  | .vNull => none
  | .vBool _ => some .kbool
  | .vInt _ => some .kint
  | .vFloat _ => some .kfloat
  | .vStr _ => some .kstring
  | .vSlice _ => some .kslice
  | .vMap _ => some .kmap

/-- `reflect.Type.Comparable`: scalar kinds are comparable, maps and
slices are not. -/
def comparableKind : GoKind → Bool
  | .kmap => false
  | .kslice => false
  | _ => true

/-- `reflect.Type.ConvertibleTo` restricted to the kinds of `GoVal`:
numeric kinds convert into one another, an integer converts to a string
(Go's rune-string conversion), every kind converts to itself. A string
does not convert to a number and `bool` converts only to itself. -/
def convertibleTo : GoKind → GoKind → Bool
  | .kint, .kint => true
  | .kint, .kfloat => true
  | .kint, .kstring => true
  | .kfloat, .kint => true
  | .kfloat, .kfloat => true
  | .kbool, .kbool => true
  | .kstring, .kstring => true
  | _, _ => false

/-- Go float-to-integer conversion: truncation toward zero. -/
def ratTrunc (q : Rat) : Int :=
  if 0 ≤ q then q.floor else q.ceil

/-- Go integer-to-string conversion `string(rune(n))`: the one-character
string of the code point when `n` is a valid Unicode scalar value,
otherwise the replacement character. -/
def intToGoString (n : Int) : String :=
  if 0 ≤ n ∧ n ≤ 1114111 ∧ ¬(55296 ≤ n ∧ n ≤ 57343) then
    String.singleton (Char.ofNat n.toNat)
  else
    String.singleton (Char.ofNat 65533)

/-- `reflect.Value.Convert` of a scalar value to a target kind; `none`
when the conversion is impossible (Go panics there). -/
def convertTo : GoVal → GoKind → Option GoVal
  | .vInt n, .kint => some (.vInt n)
  | .vInt n, .kfloat => some (.vFloat (n : Rat))
  | .vInt n, .kstring => some (.vStr (intToGoString n))
  | .vFloat q, .kint => some (.vInt (ratTrunc q))
  | .vFloat q, .kfloat => some (.vFloat q)
  | .vBool b, .kbool => some (.vBool b)
  | .vStr s, .kstring => some (.vStr s)
  | _, _ => none

/-- `reflect.Value.Equal` on two values of the same scalar kind: the `==`
of the underlying primitives. -/
def scalarEqSameKind : GoVal → GoVal → Bool
  | .vBool a, .vBool b => a == b
  | .vInt a, .vInt b => a == b
  | .vFloat a, .vFloat b => a == b
  | .vStr a, .vStr b => a == b
  | _, _ => false

/-- `compareComparable` from `internal/controller/common/utils.go`:
returns `some (equal, decided)`; `none` models the Go panic when a value
is a nil interface (`reflect.TypeOf` is nil) or when the type check
`typeA.ConvertibleTo(typeB)` passes but the actual conversion
`Convert(typeA)` of the other operand is impossible (integer desired
versus string actual). -/
def compareComparable (desired actual : GoVal) : Option (Bool × Bool) :=
  match kindOf desired, kindOf actual with
  | some kd, some ka =>
    if comparableKind kd && comparableKind ka && convertibleTo kd ka then
      match convertTo actual kd with
      | some converted => some (scalarEqSameKind converted desired, true)
      | none => none
    else
      some (false, false)
  | _, _ => none

/-- Result of `CompareMap`/`CompareSlice`: `ok b` is `(b, nil)`, `err` is
`(false, non-nil error)` (the message is not modelled), `crash` is a Go
runtime panic. -/
inductive CmpResult where
  | ok : Bool → CmpResult
  | err : CmpResult
  | crash : CmpResult
deriving DecidableEq

/-- Go map indexing `m[key]` on the association-list model of a Go map
(unique keys; the list order is the iteration order). -/
def goMapGet {β : Type} : List (String × β) → String → Option β
  | [], _ => none
  | (k, v) :: rest, key => if k = key then some v else goMapGet rest key

/-- Go map indexing `actual[key]` on the association-list model. -/
def lookupVal (m : List (String × GoVal)) (key : String) : Option GoVal :=
  goMapGet m key

mutual

/-- `CompareMap` from `internal/controller/common/utils.go`. The
`reflect.TypeOf(desired)` guard in the source always sees the outer
`map[string]interface\x7b\x7d` type, so the body of that `if` always
runs and the trailing `return false, Errorf` is dead code. -/
def CompareMap (desired actual : List (String × GoVal)) : CmpResult :=
  if desired.length = actual.length then cmpMapEntries desired actual
  else .ok false
termination_by (sizeOf desired, 1)

/-- The `for key, value := range desired` loop of `CompareMap`; a
recursion into a nested map or slice returns its result immediately, as
the source does. -/
def cmpMapEntries : List (String × GoVal) → List (String × GoVal) → CmpResult
  | [], _ => .ok true
  | (key, value) :: rest, actual =>
    match lookupVal actual key with
    | none => .ok false
    | some actualValue =>
      match compareComparable value actualValue with
      | none => .crash
      | some (equal, true) =>
        if equal then cmpMapEntries rest actual else .ok false
      | some (_, false) =>
        if kindOf value = kindOf actualValue then
          match value, actualValue with
          | .vMap m1, .vMap m2 => CompareMap m1 m2
          | .vSlice s1, .vSlice s2 => CompareSlice s1 s2
          | _, _ => .err
        else .ok false
termination_by d _ => (sizeOf d, 0)

/-- `CompareSlice` from `internal/controller/common/utils.go`. An element
whose desired side is a map or slice while the actual side has a
different kind hits a failing Go type assertion, modelled as `crash`. -/
def CompareSlice (desired actual : List GoVal) : CmpResult :=
  if desired.length = actual.length then cmpSliceElems desired actual
  else .ok false
termination_by (sizeOf desired, 1)

/-- The `for i, value := range desired` loop of `CompareSlice`; the two
lists have equal length when this is reached, so the `[]` mismatch case
(an out-of-range index in Go) cannot occur. -/
def cmpSliceElems : List GoVal → List GoVal → CmpResult
  | [], _ => .ok true
  | _ :: _, [] => .crash
  | value :: rest, actualValue :: actualRest =>
    match compareComparable value actualValue with
    | none => .crash
    | some (equal, true) =>
      if equal then cmpSliceElems rest actualRest else .ok false
    | some (_, false) =>
      match value with
      | .vMap m1 =>
        match actualValue with
        | .vMap m2 => CompareMap m1 m2
        | _ => .crash
      | .vSlice s1 =>
        match actualValue with
        | .vSlice s2 => CompareSlice s1 s2
        | _ => .crash
      | _ => .err
termination_by d _ => (sizeOf d, 0)

end

/-- `CompareOptional` from `internal/controller/common/utils.go`: a nil
desired pointer stands for the default; the actual value is compared
against the expectation. -/
def CompareOptional {K : Type} [DecidableEq K] (desired : Option K) (actual defaultValue : K) : Bool :=
  let expected :=
    match desired with
    | none => defaultValue
    | some d => d
  decide (actual = expected)

namespace Org

/-- `OrgUser` from `internal/controller/organization/organization.go`. -/
structure OrgUser where
  id : Int
  email : String
  role : String
deriving DecidableEq

/-- `ChangeType` constants `Add`, `Update`, `Remove`. -/
inductive ChangeType where
  | add
  | update
  | remove
deriving DecidableEq

/-- `UserChange` from the organization controller. -/
structure UserChange where
  type : ChangeType
  user : OrgUser
deriving DecidableEq

/-- Go map indexing `m[email]` on the association-list model of a
`map[string]OrgUser`. -/
def lookupUser (m : List (String × OrgUser)) (key : String) : Option OrgUser :=
  goMapGet m key

/-- `userChanges(stateUsers, configUsers)`: one pass over the desired
(config) map emitting `Add`/`Update`, then one pass over the stateful map
emitting `Remove`.  Go map iteration order is unspecified; the list order
of each association list is one possible iteration order. -/
def userChanges (stateUsers configUsers : List (String × OrgUser)) : List UserChange :=
  (configUsers.filterMap fun p =>
    match lookupUser stateUsers p.2.email with
    | none => some ⟨.add, p.2⟩
    | some sUser => if sUser.role ≠ p.2.role then some ⟨.update, p.2⟩ else none)
  ++ (stateUsers.filterMap fun p =>
    match lookupUser configUsers p.2.email with
    | none => some ⟨.remove, p.2⟩
    | some _ => none)

/-- Go map assignment `m[k] = u` (replace an existing key, else append). -/
def insertUser (m : List (String × OrgUser)) (k : String) (u : OrgUser) : List (String × OrgUser) :=
  if (lookupUser m k).isSome then
    m.map fun p => if p.1 = k then (k, u) else p
  else
    m ++ [(k, u)]

/-- `mapUsers` from the organization controller: indexes the four role
lists by email, later inserts overwriting earlier ones. -/
def mapUsers (admins editors viewers usersWithoutAccess : List String) : List (String × OrgUser) :=
  let m := admins.foldl (fun m e => insertUser m e ⟨0, e, "Admin"⟩) []
  let m := editors.foldl (fun m e => insertUser m e ⟨0, e, "Editor"⟩) m
  let m := viewers.foldl (fun m e => insertUser m e ⟨0, e, "Viewer"⟩) m
  usersWithoutAccess.foldl (fun m e => insertUser m e ⟨0, e, "None"⟩) m

/-- The error built by `addUserIdsToChanges` for a missing, non-removed
user when auto-provisioning is off. -/
def errUserMissing (email : String) : String :=
  "error adding user " ++ email ++ ". User does not exist in Grafana"

/-- `change.User.ID = id` before appending to the output. -/
def setId (c : UserChange) (id : Int) : UserChange :=
  { c with user := { c.user with id := id } }

/-- `addUserIdsToChanges` from the organization controller, after the
directory index `gUserMap` has been built from `getAllUsers` (later
directory entries overwrite earlier ones; the built index is taken as a
function).  `createU` stands for the `c.createUser` method; `createUsers`
is `d.CreateUsers`, defaulting to true when nil. -/
def addUserIdsToChanges (gUserMap : String → Option Int) (createUsers : Option Bool)
    (createU : String → Except String Int) : List UserChange → Except String (List UserChange)
  | [] => .ok []
  | change :: rest =>
    let create := createUsers.getD true
    match gUserMap change.user.email with
    | some id =>
      match addUserIdsToChanges gUserMap createUsers createU rest with
      | .ok out => .ok (setId change id :: out)
      | .error e => .error e
    | none =>
      if change.type = .remove then
        addUserIdsToChanges gUserMap createUsers createU rest
      else if !create then
        .error (errUserMissing change.user.email)
      else
        match createU change.user.email with
        | .error e => .error e
        | .ok id =>
          match addUserIdsToChanges gUserMap createUsers createU rest with
          | .ok out => .ok (setId change id :: out)
          | .error e => .error e

/-- `models.AdminCreateUserForm` as submitted by `createUser` (password
kept as raw bytes, Go builds `string(bytes[:64])`). -/
structure AdminCreateUserForm where
  name : String
  login : String
  email : String
  password : List Nat
deriving DecidableEq

/-- `createUser` from the organization controller: draws 64 random bytes
from the cryptographic source (`randRead`, which either fails or yields
the filled buffer), uses them verbatim as the password, and submits an
admin-create call with name, login and email all set to the user key;
the created identity is the call's payload ID. -/
def createUser (randRead : Except String (List Nat))
    (adminCreateUser : AdminCreateUserForm → Except String Int) (user : String) :
    Except String Int :=
  match randRead with
  | .error e => .error e
  | .ok bytes =>
    adminCreateUser { name := user, login := user, email := user, password := bytes }

end Org

/-- An error as seen through the `ApiError` interface: an OpenAPI error
carrying a status code, or any other error (for which `IsCode` is never
true). -/
inductive GoErr where
  | api : Nat → GoErr
  | other : String → GoErr
deriving DecidableEq

namespace Common

/-- Variadic `isCode` from the common gateway
(`src/unnamed/part_001`). -/
def isCode (err : Option GoErr) (codes : List Nat) : Bool :=
  match err with
  | none => false
  | some (GoErr.api c) => codes.contains c
  | some (GoErr.other _) => false

/-- `ignoreStatusCodesOnObserve` from the common gateway: forbidden and
not-found. -/
def ignoreStatusCodesOnObserve : List Nat := [403, 404]

/-- A gateway response as seen through `ApiResponse`: its status code and
its (possibly nil) payload pointer. -/
structure ApiResponse (R : Type) where
  code : Nat
  payload : Option R

/-- `orNilOnStatus` from the common gateway: an error or response whose
status is in the ignore list collapses to `(nil, nil)`; other errors
surface; otherwise the payload is returned. -/
def orNilOnStatus {R : Type} (response : Option (ApiResponse R)) (err : Option GoErr)
    (status : List Nat) : Except GoErr (Option R) :=
  if isCode err status then .ok none
  else
    match err with
    | some e => .error e
    | none =>
      match response with
      | none => .ok none
      | some r =>
        if status.any (fun c => r.code = c) then .ok none
        else .ok r.payload

/-- `orNilOnNotFound` from the common gateway. -/
def orNilOnNotFound {R : Type} (response : Option (ApiResponse R)) (err : Option GoErr) :
    Except GoErr (Option R) :=
  orNilOnStatus response err [404]

end Common

namespace Dash

/-- The existence decision of the dashboard `Observe`
(`src/unnamed/part_006`, lines 188-198) composed with
`GetDashboardByUid`, which filters through `orNilOnStatus` with the
observe ignore list: `ok false` is `ResourceExists: false`. -/
def observeExists {R : Type} (response : Option (Common.ApiResponse R)) (err : Option GoErr) :
    Except GoErr Bool :=
  match Common.orNilOnStatus response err Common.ignoreStatusCodesOnObserve with
  | .error e => .error e
  | .ok none => .ok false
  | .ok (some _) => .ok true

end Dash

namespace Org

/-- Single-code `isCode` from the organization controller. -/
def isCodeOne (err : Option GoErr) (code : Nat) : Bool :=
  match err with
  | none => false
  | some (GoErr.api c) => c = code
  | some (GoErr.other _) => false

/-- The absence decision at the head of `observeActualParameters`
(organization controller, lines 233-241): only a 404 from the direct
fetch is treated as absence (`ok true`, making `Observe` report
`ResourceExists: false`); any other error — including a 403 — is
surfaced; on success observation continues (`ok false`). -/
def observeActualParametersDecision (err : Option GoErr) : Except GoErr Bool :=
  if isCodeOne err 404 then .ok true
  else
    match err with
    | some e => .error e
    | none => .ok false

end Org

/-- Outcome of a controller `Delete`: Go `nil` error, a non-nil error, or
a runtime panic. -/
inductive DeleteResult where
  | success : DeleteResult
  | failure : GoErr → DeleteResult
  | crash : DeleteResult
deriving DecidableEq

namespace Org

/-- The gateway calls the organization `Delete` can issue. -/
inductive OrgCall where
  | getSignedInUser
  | switchToLowestOrgId
  | deleteOrgByID
deriving DecidableEq

/-- `Delete` from the organization controller (lines 554-581): a nil
`Status.AtProvider.OrgID` returns success immediately with no gateway
call; otherwise the signed-in user is fetched, the session is switched
away when it is scoped to the organization being deleted, and the delete
call is issued.  The second component is the trace of gateway calls. -/
def orgDelete (orgID : Option Int) (signedInOrg : Except GoErr Int)
    (switchToLowest : Except GoErr Unit) (deleteOrg : Option GoErr) :
    DeleteResult × List OrgCall :=
  match orgID with
  | none => (.success, [])
  | some id =>
    match signedInOrg with
    | .error e => (.failure e, [.getSignedInUser])
    | .ok current =>
      let afterSwitch : Option GoErr × List OrgCall :=
        if current = id then
          match switchToLowest with
          | .error e => (some e, [OrgCall.getSignedInUser, OrgCall.switchToLowestOrgId])
          | .ok _ => (none, [OrgCall.getSignedInUser, OrgCall.switchToLowestOrgId])
        else (none, [OrgCall.getSignedInUser])
      match afterSwitch.1 with
      | some e => (.failure e, afterSwitch.2)
      | none =>
        match deleteOrg with
        | some e => (.failure e, afterSwitch.2 ++ [OrgCall.deleteOrgByID])
        | none => (.success, afterSwitch.2 ++ [OrgCall.deleteOrgByID])

end Org

namespace Dash

/-- `Delete` from the dashboard controller (`src/unnamed/part_006`, lines
338-354), after the spec's organization id has been parsed: the recorded
UID is dereferenced unconditionally (`*cr.Status.AtProvider.UID`), so a
missing identity is a nil-pointer panic before any gateway call.  The
second component is the number of gateway calls issued. -/
def dashboardDelete (orgId : Int) (uid : Option String)
    (deleteDashboard : Int → String → Option GoErr) : DeleteResult × Nat :=
  match uid with
  | none => (.crash, 0)
  | some u =>
    match deleteDashboard orgId u with
    | some e => (.failure e, 1)
    | none => (.success, 1)

/-- `isUpToDate` from the dashboard controller (`src/unnamed/part_006`,
lines 404-422).  Arguments are the fields the function reads:
`spec.Folder`, `spec.ConfigJSON`, `Status.AtProvider.UID`,
`Status.AtProvider.ConfigJSON`, `atGrafana.Meta.FolderUID`, and the
freshly fetched remote dashboard payload `atGrafana.Dashboard` (carried
because the source receives the whole fetched object).  Returns the
verdict and the status record's ConfigJSON after the call (the nil-UID
branch writes `spec.ConfigJSON` into the status). -/
def isUpToDate (specFolder specConfigJson : Option String)
    (statusUID statusConfigJson : Option String)
    (metaFolderUID : String) (_remoteDashboardBody : Option String) :
    Bool × Option String :=
  let folderOk := CompareOptional specFolder metaFolderUID ""
  match statusUID with
  | some _ =>
    (folderOk && (statusConfigJson.isSome &&
      CompareOptional specConfigJson (statusConfigJson.getD "") ""),
     statusConfigJson)
  | none => (folderOk, specConfigJson)

end Dash

namespace Page

/-- The pagination loop shared verbatim by `GetAllUsers` and `GetAllOrgs`
in the common gateway (`src/unnamed/part_001`): fetch the current page,
append it, stop when its element count differs from the requested page
size, else advance.  `fuel` bounds the number of iterations (the Go loop
is unbounded); the result is the accumulated list and the number of
gateway calls issued. -/
def getAllLoop {α : Type} (fetch : Nat → List α) (perpage : Nat) :
    Nat → Nat → Option (List α × Nat)
  | 0, _ => none
  | fuel + 1, page =>
    let resp := fetch page
    if resp.length ≠ perpage then some (resp, 1)
    else
      match getAllLoop fetch perpage fuel (page + 1) with
      | none => none
      | some (restList, calls) => some (resp ++ restList, calls + 1)

/-- `GetAllUsers` from the common gateway: runs the pagination loop
starting at page index 0 (the first page it requests). -/
def GetAllUsers {α : Type} (fetch : Nat → List α) (perpage fuel : Nat) :
    Option (List α × Nat) :=
  getAllLoop fetch perpage fuel 0

/-- `GetAllOrgs` from the common gateway: the same loop, starting at page
index 0. -/
def GetAllOrgs {α : Type} (fetch : Nat → List α) (perpage fuel : Nat) :
    Option (List α × Nat) :=
  getAllLoop fetch perpage fuel 0

end Page

mutual

/-- A semi-structured value is well formed when it contains no nil
interface value and every mapping in it has pairwise distinct keys (the
association lists really are Go maps). -/
def wfVal : GoVal → Bool
  | .vNull => false
  | .vBool _ => true
  | .vInt _ => true
  | .vFloat _ => true
  | .vStr _ => true
  | .vSlice xs => wfList xs
  | .vMap m => decide ((m.map Prod.fst).Nodup) && wfEntries m

/-- All elements of a sequence are well formed. -/
def wfList : List GoVal → Bool
  | [] => true
  | v :: rest => wfVal v && wfList rest

/-- All values of a mapping are well formed. -/
def wfEntries : List (String × GoVal) → Bool
  | [] => true
  | (_, v) :: rest => wfVal v && wfEntries rest

end

/-- A scalar dynamic value (boolean, number or string). -/
def isScalar : GoVal → Bool
  | .vBool _ => true
  | .vInt _ => true
  | .vFloat _ => true
  | .vStr _ => true
  | _ => false

theorem goMapGet_self {β : Type} :
    ∀ (m : List (String × β)), (m.map Prod.fst).Nodup →
      ∀ p ∈ m, goMapGet m p.1 = some p.2 := by
  intro m
  induction m with
  | nil => intro _ p hp; cases hp
  | cons q rest ih =>
    intro hnd p hp
    obtain ⟨k, v⟩ := q
    simp only [List.map_cons, List.nodup_cons] at hnd
    rcases List.mem_cons.mp hp with rfl | hp
    · simp [goMapGet]
    · have hk : k ≠ p.1 := by
        intro hkey
        exact hnd.1 (hkey ▸ List.mem_map_of_mem Prod.fst hp)
      simp only [goMapGet, if_neg hk]
      exact ih hnd.2 p hp

theorem goMapGet_map {β γ : Type} (f : β → γ) :
    ∀ (m : List (String × β)) (k : String),
      goMapGet (m.map fun p => (p.1, f p.2)) k = (goMapGet m k).map f := by
  intro m
  induction m with
  | nil => intro k; simp [goMapGet]
  | cons q rest ih =>
    intro k
    obtain ⟨k0, v0⟩ := q
    by_cases h : k0 = k <;> simp [goMapGet, h, ih]

theorem ratTrunc_intCast (n : Int) : ratTrunc (n : Rat) = n := by
  simp [ratTrunc, Rat.floor, Rat.ceil]

/-- C1 (amended): when `CompareMap` reaches a key whose desired and
actual values have mismatched fundamental kinds (mapping vs sequence,
mapping vs scalar, scalar vs mapping), it yields `(false, nil)` — a plain
false verdict with a nil error — rather than the comparison error the
claim requires. -/
theorem C1_kind_mismatch_is_false_nil (k : String) (m : List (String × GoVal))
    (s : List GoVal) (n : Int) (b : Bool) :
    CompareMap [(k, .vMap m)] [(k, .vSlice s)] = .ok false ∧
    CompareMap [(k, .vMap m)] [(k, .vBool b)] = .ok false ∧
    CompareMap [(k, .vMap m)] [(k, .vInt n)] = .ok false ∧
    CompareMap [(k, .vSlice s)] [(k, .vMap m)] = .ok false ∧
    CompareMap [(k, .vInt n)] [(k, .vMap m)] = .ok false := by
  refine ⟨?_, ?_, ?_, ?_, ?_⟩ <;>
    simp [CompareMap, cmpMapEntries, compareComparable, kindOf, comparableKind,
      convertibleTo, lookupVal, goMapGet]

/-- C1 counterexample: a desired mapping value against an actual sequence
value produces `(false, nil)` — not a non-nil comparison error as the
claim states. -/
theorem C1_counterexample :
    CompareMap [("k", GoVal.vMap [])] [("k", GoVal.vSlice [])] = CmpResult.ok false := by
  simp [CompareMap, cmpMapEntries, compareComparable, kindOf, comparableKind, lookupVal, goMapGet]

theorem intFloatEntries (whole : List (String × Int)) (hnd : (whole.map Prod.fst).Nodup) :
    ∀ rest : List (String × Int), (∀ p ∈ rest, p ∈ whole) →
      cmpMapEntries (rest.map fun p => (p.1, GoVal.vInt p.2))
        (whole.map fun p => (p.1, GoVal.vFloat (p.2 : Rat))) = CmpResult.ok true := by
  intro rest
  induction rest with
  | nil => intro _; simp [cmpMapEntries]
  | cons p rest ih =>
    intro hsub
    have hmem : p ∈ whole := hsub p (by simp)
    have hlook : goMapGet whole p.1 = some p.2 := goMapGet_self whole hnd p hmem
    have hlookf : lookupVal (whole.map fun q => (q.1, GoVal.vFloat (q.2 : Rat))) p.1
        = some (GoVal.vFloat (p.2 : Rat)) := by
      show goMapGet _ _ = _
      rw [goMapGet_map (fun n : Int => GoVal.vFloat (n : Rat)) whole p.1, hlook]
      rfl
    simp only [List.map_cons, cmpMapEntries, hlookf, compareComparable, kindOf, comparableKind,
      convertibleTo, convertTo, scalarEqSameKind, ratTrunc_intCast, Bool.and_self, if_true,
      beq_self_eq_true, if_pos]
    exact ih fun q hq => hsub q (List.mem_cons_of_mem p hq)

/-- C3: for directly comparable scalars — same comparable primitive kind,
or two numeric kinds — `compareComparable` converts the actual value into
the desired value's kind and tests primitive equality; in particular two
mappings with the same keys holding the same integers in integer versus
floating representation compare as equal maps. -/
theorem C3_directly_comparable :
    (∀ (d a : GoVal) (kd ka : GoKind), kindOf d = some kd → kindOf a = some ka →
      ((kd = ka ∧ comparableKind kd = true) ∨
        ((kd = GoKind.kint ∨ kd = GoKind.kfloat) ∧ (ka = GoKind.kint ∨ ka = GoKind.kfloat))) →
      (convertTo a kd).isSome = true ∧
        ∀ conv, convertTo a kd = some conv →
          compareComparable d a = some (scalarEqSameKind conv d, true)) ∧
    (∀ kvs : List (String × Int), (kvs.map Prod.fst).Nodup →
      CompareMap (kvs.map fun p => (p.1, GoVal.vInt p.2))
        (kvs.map fun p => (p.1, GoVal.vFloat (p.2 : Rat))) = CmpResult.ok true) := by
  constructor
  · intro d a kd ka h1 h2 h3
    have hcond : (comparableKind kd && comparableKind ka && convertibleTo kd ka) = true := by
      rcases h3 with ⟨rfl, hc⟩ | ⟨hd, ha⟩
      · cases kd <;> simp_all [comparableKind, convertibleTo]
      · rcases hd with rfl | rfl <;> rcases ha with rfl | rfl <;> rfl
    have hsome : (convertTo a kd).isSome = true := by
      rcases h3 with ⟨rfl, hc⟩ | ⟨hd, ha⟩
      · cases a <;> simp [kindOf] at h2 <;> subst h2 <;>
          simp_all [convertTo, comparableKind]
      · rcases hd with rfl | rfl <;> rcases ha with rfl | rfl <;>
          cases a <;> simp_all [kindOf, convertTo]
    refine ⟨hsome, ?_⟩
    intro conv hconv
    simp only [compareComparable, h1, h2, hcond, if_true, hconv]
  · intro kvs hnd
    have hcm := intFloatEntries kvs hnd kvs (fun p hp => hp)
    simp [CompareMap, hcm]

/-- C3 witness: integer 1 against floating 1.0 is decided by converting
the actual into the desired kind; the two-key integer/float mapping pair
compares equal. -/
theorem C3_directly_comparable_witness :
    (convertTo (GoVal.vFloat 1) GoKind.kint).isSome = true ∧
    compareComparable (GoVal.vInt 1) (GoVal.vFloat 1) =
      some (scalarEqSameKind (GoVal.vInt 1) (GoVal.vInt 1), true) ∧
    CompareMap [("a", GoVal.vInt 1), ("b", GoVal.vInt 2)]
      [("a", GoVal.vFloat 1), ("b", GoVal.vFloat 2)] = CmpResult.ok true := by
  have h1 := C3_directly_comparable.1 (GoVal.vInt 1) (GoVal.vFloat 1) GoKind.kint GoKind.kfloat
    rfl rfl (Or.inr ⟨Or.inl rfl, Or.inr rfl⟩)
  have h2 := C3_directly_comparable.2 [("a", (1 : Int)), ("b", (2 : Int))] (by simp)
  refine ⟨h1.1, ?_, ?_⟩
  · have := h1.2 (GoVal.vInt (ratTrunc (1 : Rat))) (by simp [convertTo])
    simpa [ratTrunc_intCast] using this
  · simpa using h2

/-- C7 (amended): a not-found or forbidden outcome of the direct fetch is
treated as absence (`ResourceExists: false`) by the controllers that go
through the common gateway ignore list — the dashboard path shown here —
both when it arrives as an API error and when it arrives as a response
status; the organization controller, however, treats only 404 as
absence, and surfaces a 403 fetch error instead of reporting absence. -/
theorem C7_absence_equivalence :
    (∀ (R : Type) (resp : Option (Common.ApiResponse R)) (c : Nat),
      c ∈ Common.ignoreStatusCodesOnObserve →
        Dash.observeExists resp (some (GoErr.api c)) = Except.ok false) ∧
    (∀ (R : Type) (r : Common.ApiResponse R), r.code ∈ Common.ignoreStatusCodesOnObserve →
        Dash.observeExists (some r) none = Except.ok false) ∧
    (Org.observeActualParametersDecision (some (GoErr.api 404)) = Except.ok true) ∧
    (Org.observeActualParametersDecision (some (GoErr.api 403)) =
      Except.error (GoErr.api 403)) := by
  refine ⟨?_, ?_, ?_, ?_⟩
  · intro R resp c hc
    have : Common.isCode (some (GoErr.api c)) Common.ignoreStatusCodesOnObserve = true := by
      simp [Common.isCode, hc]
    simp [Dash.observeExists, Common.orNilOnStatus, this]
  · intro R r hr
    have : Common.ignoreStatusCodesOnObserve.any (fun c => r.code = c) = true := by
      simp only [List.any_eq_true, decide_eq_true_eq]
      exact ⟨r.code, hr, rfl⟩
    simp [Dash.observeExists, Common.orNilOnStatus, Common.isCode, this]
  · rfl
  · rfl

/-- C7 witness: a forbidden (403) API error at the dashboard fetch, and a
404 response status, both report plain non-existence. -/
theorem C7_absence_equivalence_witness :
    Dash.observeExists (none : Option (Common.ApiResponse Nat)) (some (GoErr.api 403)) =
      Except.ok false ∧
    Dash.observeExists (some ({ code := 404, payload := some 7 } : Common.ApiResponse Nat))
      none = Except.ok false := by
  constructor
  · exact C7_absence_equivalence.1 Nat none 403 (by simp [Common.ignoreStatusCodesOnObserve])
  · exact C7_absence_equivalence.2.1 Nat { code := 404, payload := some 7 }
      (by simp [Common.ignoreStatusCodesOnObserve])

/-- C7 counterexample: for the organization kind a forbidden (403)
outcome of the direct fetch is surfaced as an error, not treated as
absence, contradicting the claim's "for every resource kind". -/
theorem C7_counterexample :
    Org.observeActualParametersDecision (some (GoErr.api 403)) =
      Except.error (GoErr.api 403) := rfl

/-- C8 (amended): the organization `Delete` with no recorded external
identity returns success without issuing any gateway call; the dashboard
`Delete` instead dereferences the recorded UID unconditionally and
panics (with no gateway call) when the Status Record carries none. -/
theorem C8_delete_without_identity :
    (∀ (s : Except GoErr Int) (sw : Except GoErr Unit) (d : Option GoErr),
      Org.orgDelete none s sw d = (DeleteResult.success, [])) ∧
    (∀ (orgId : Int) (f : Int → String → Option GoErr),
      Dash.dashboardDelete orgId none f = (DeleteResult.crash, 0)) := by
  exact ⟨fun _ _ _ => rfl, fun _ _ => rfl⟩

/-- C8 counterexample: the dashboard `Delete` with an empty Status Record
panics instead of returning success. -/
theorem C8_counterexample :
    Dash.dashboardDelete 1 none (fun _ _ => none) = (DeleteResult.crash, 0) := rfl

/-- C10: with no UID recorded, the dashboard up-to-date verdict is
exactly the folder comparison — independent of both configuration
payloads — and the desired configuration string is written into the
Status Record; with a UID recorded, the verdict is the folder comparison
conjoined with raw string equality between the desired configuration and
the status copy, and the whole result is independent of the freshly
fetched remote dashboard payload. -/
theorem C10_dashboard_up_to_date :
    (∀ specFolder specCfg specCfg' statusCfg statusCfg' meta body body',
      (Dash.isUpToDate specFolder specCfg none statusCfg meta body).1 =
        (Dash.isUpToDate specFolder specCfg' none statusCfg' meta body').1 ∧
      (Dash.isUpToDate specFolder specCfg none statusCfg meta body).1 =
        CompareOptional specFolder meta "" ∧
      (Dash.isUpToDate specFolder specCfg none statusCfg meta body).2 = specCfg) ∧
    (∀ specFolder specCfg u statusCfg meta body,
      Dash.isUpToDate specFolder specCfg (some u) statusCfg meta body =
        (CompareOptional specFolder meta "" &&
          (statusCfg.isSome && CompareOptional specCfg (statusCfg.getD "") ""),
         statusCfg)) ∧
    (∀ specFolder specCfg statusUID statusCfg meta body body',
      Dash.isUpToDate specFolder specCfg statusUID statusCfg meta body =
        Dash.isUpToDate specFolder specCfg statusUID statusCfg meta body') := by
  refine ⟨?_, ?_, ?_⟩
  · intro sf sc sc' stc stc' meta b b'
    exact ⟨rfl, rfl, rfl⟩
  · intro sf sc u stc meta b
    rfl
  · intro sf sc su stc meta b b'
    rfl

theorem getAllLoop_spec {α : Type} (fetch : Nat → List α) (perpage : Nat) :
    ∀ (k fuel start : Nat), (∀ i < k, (fetch (start + i)).length = perpage) →
      (fetch (start + k)).length ≠ perpage → k < fuel →
      Page.getAllLoop fetch perpage fuel start =
        some (((List.range (k + 1)).map (fun i => fetch (start + i))).join, k + 1) := by
  intro k
  induction k with
  | zero =>
    intro fuel start hfull hstop hfuel
    obtain ⟨f, rfl⟩ := Nat.exists_eq_succ_of_ne_zero (show fuel ≠ 0 by omega)
    have h0 : (fetch start).length ≠ perpage := by simpa using hstop
    simp [Page.getAllLoop, h0, List.range_succ]
  | succ k ih =>
    intro fuel start hfull hstop hfuel
    obtain ⟨f, rfl⟩ := Nat.exists_eq_succ_of_ne_zero (show fuel ≠ 0 by omega)
    have h0 : (fetch start).length = perpage := by simpa using hfull 0 (Nat.succ_pos k)
    have hrec := ih f (start + 1)
      (fun i hi => by
        have := hfull (i + 1) (Nat.succ_lt_succ hi)
        simpa [Nat.add_assoc, Nat.add_comm 1 i] using this)
      (by
        have : start + 1 + k = start + (k + 1) := by omega
        simpa [this] using hstop)
      (Nat.lt_of_succ_lt_succ hfuel)
    have hmap : ((fun i => fetch (start + i)) ∘ Nat.succ) = fun i => fetch (start + 1 + i) := by
      funext i
      show fetch (start + Nat.succ i) = fetch (start + 1 + i)
      congr 1
      omega
    have hjoin : ((List.range (k + 1 + 1)).map (fun i => fetch (start + i))).join =
        fetch start ++ ((List.range (k + 1)).map (fun i => fetch (start + 1 + i))).join := by
      rw [List.range_succ_eq_map]
      simp only [List.map_cons, List.map_map, List.join_cons, Nat.add_zero, hmap]
    simp [Page.getAllLoop, h0, hrec, hjoin]

/-- C9: the paginated listings request successive pages of a fixed page
size starting from their initial page index, return the concatenation of
all returned pages, and stop exactly at the first page whose element
count is strictly below the page size (given a gateway whose pages never
exceed the requested size, the source's not-equal test coincides with
strictly-less); the first short page is fetched and the loop issues
exactly `k + 1` calls when page `k` is the first short one — so a full
genuine last page incurs exactly one extra, empty trailing request. -/
theorem C9_pagination (α : Type) (fetch : Nat → List α) (perpage k fuel : Nat)
    (hfull : ∀ i < k, (fetch i).length = perpage)
    (hstop : (fetch k).length < perpage)
    (hfuel : k < fuel) :
    Page.GetAllUsers fetch perpage fuel =
      some (((List.range (k + 1)).map fetch).join, k + 1) ∧
    Page.GetAllOrgs fetch perpage fuel =
      some (((List.range (k + 1)).map fetch).join, k + 1) := by
  have h := getAllLoop_spec fetch perpage k fuel 0
    (fun i hi => by simpa using hfull i hi)
    (by simpa using Nat.ne_of_lt hstop)
    hfuel
  constructor
  · simpa [Page.GetAllUsers] using h
  · simpa [Page.GetAllOrgs] using h

/-- C9 witness: a gateway holding five elements in pages of size two
(`[2,2,1]`) yields all five elements in exactly three calls; a gateway
holding four elements in two full pages of size two incurs exactly one
extra, empty trailing call (three calls in total). -/
theorem C9_pagination_witness :
    Page.GetAllUsers (fun i => [[1, 2], [3, 4], [5]].getD i ([] : List Nat)) 2 10 =
      some ([1, 2, 3, 4, 5], 3) ∧
    Page.GetAllOrgs (fun i => [[1, 2], [3, 4]].getD i ([] : List Nat)) 2 10 =
      some ([1, 2, 3, 4], 3) := by
  constructor
  · have h := (C9_pagination Nat (fun i => [[1, 2], [3, 4], [5]].getD i ([] : List Nat)) 2 2 10
      (by decide) (by decide) (by decide)).1
    simpa [List.range_succ] using h
  · have h := (C9_pagination Nat (fun i => [[1, 2], [3, 4]].getD i ([] : List Nat)) 2 2 10
      (by decide) (by decide) (by decide)).2
    simpa [List.range_succ] using h

/-- C6: during identity materialization, a `Remove` whose user is absent
from the directory is skipped and never fails the pass; a non-`Remove`
with an absent user fails the whole pass with an error naming the user
when auto-provisioning is disabled; with it enabled (explicitly or by
default) the user is created and the minted identity is attached, a
creation failure propagating; when every non-`Remove` user is present
the pass succeeds with the directory identities attached; and
`createUser` submits exactly the admin-create form whose name, login and
email are the user key and whose password is the byte string drawn from
the cryptographic random source, propagating a failure of that source. -/
theorem C6_identity_materialization :
    (∀ (gm : String → Option Int) (cu : Option Bool) (f : String → Except String Int)
        (c : Org.UserChange) (rest : List Org.UserChange),
      c.type = Org.ChangeType.remove → gm c.user.email = none →
        Org.addUserIdsToChanges gm cu f (c :: rest) = Org.addUserIdsToChanges gm cu f rest) ∧
    (∀ (gm : String → Option Int) (f : String → Except String Int)
        (c : Org.UserChange) (rest : List Org.UserChange),
      c.type ≠ Org.ChangeType.remove → gm c.user.email = none →
        Org.addUserIdsToChanges gm (some false) f (c :: rest) =
          Except.error (Org.errUserMissing c.user.email)) ∧
    (∀ (gm : String → Option Int) (cu : Option Bool) (f : String → Except String Int)
        (c : Org.UserChange) (rest : List Org.UserChange) (id : Int)
        (out : List Org.UserChange),
      c.type ≠ Org.ChangeType.remove → gm c.user.email = none → cu.getD true = true →
        f c.user.email = Except.ok id →
        Org.addUserIdsToChanges gm cu f rest = Except.ok out →
        Org.addUserIdsToChanges gm cu f (c :: rest) = Except.ok (Org.setId c id :: out)) ∧
    (∀ (gm : String → Option Int) (cu : Option Bool) (f : String → Except String Int)
        (c : Org.UserChange) (rest : List Org.UserChange) (e : String),
      c.type ≠ Org.ChangeType.remove → gm c.user.email = none → cu.getD true = true →
        f c.user.email = Except.error e →
        Org.addUserIdsToChanges gm cu f (c :: rest) = Except.error e) ∧
    (∀ (gm : String → Option Int) (cu : Option Bool) (f : String → Except String Int)
        (changes : List Org.UserChange),
      (∀ c ∈ changes, c.type ≠ Org.ChangeType.remove → (gm c.user.email).isSome = true) →
        Org.addUserIdsToChanges gm cu f changes =
          Except.ok (changes.filterMap fun c => (gm c.user.email).map (Org.setId c))) ∧
    (∀ (bytes : List Nat) (api : Org.AdminCreateUserForm → Except String Int) (u : String),
      Org.createUser (Except.ok bytes) api u =
        api { name := u, login := u, email := u, password := bytes }) ∧
    (∀ (e : String) (api : Org.AdminCreateUserForm → Except String Int) (u : String),
      Org.createUser (Except.error e) api u = Except.error e) := by
  refine ⟨?_, ?_, ?_, ?_, ?_, ?_, ?_⟩
  · intro gm cu f c rest htype habs
    simp [Org.addUserIdsToChanges, habs, htype]
  · intro gm f c rest htype habs
    simp [Org.addUserIdsToChanges, habs, htype]
  · intro gm cu f c rest id out htype habs hcreate hf hrest
    simp [Org.addUserIdsToChanges, habs, htype, hcreate, hf, hrest]
  · intro gm cu f c rest e htype habs hcreate hf
    simp [Org.addUserIdsToChanges, habs, htype, hcreate, hf]
  · intro gm cu f changes hpresent
    induction changes with
    | nil => simp [Org.addUserIdsToChanges]
    | cons c rest ih =>
      have hrest := ih fun d hd => hpresent d (List.mem_cons_of_mem c hd)
      by_cases hc : (gm c.user.email).isSome = true
      · obtain ⟨id, hid⟩ := Option.isSome_iff_exists.mp hc
        simp [Org.addUserIdsToChanges, hid, hrest]
      · have habs : gm c.user.email = none := Option.not_isSome_iff_eq_none.mp (by simpa using hc)
        have htype : c.type = Org.ChangeType.remove := by
          by_contra h
          exact hc (hpresent c (by simp) h)
        simp [Org.addUserIdsToChanges, habs, htype, hrest]
  · intro bytes api u
    rfl
  · intro e api u
    rfl

/-- C6 witness: a `Remove` of a vanished user is skipped while the rest
of the pass proceeds with directory identities attached; a missing
non-`Remove` user with auto-provisioning disabled fails naming the user;
`createUser` hands the drawn random bytes to the admin-create call. -/
theorem C6_identity_materialization_witness :
    Org.addUserIdsToChanges (fun e => if e = "a@x.com" then some 7 else none) none
      (fun _ => Except.ok 9)
      [⟨Org.ChangeType.remove, ⟨0, "gone@x.com", "Viewer"⟩⟩,
       ⟨Org.ChangeType.add, ⟨0, "a@x.com", "Admin"⟩⟩] =
      Except.ok [⟨Org.ChangeType.add, ⟨7, "a@x.com", "Admin"⟩⟩] ∧
    Org.addUserIdsToChanges (fun _ => none) (some false) (fun _ => Except.ok 9)
      [⟨Org.ChangeType.add, ⟨0, "b@x.com", "Editor"⟩⟩] =
      Except.error (Org.errUserMissing "b@x.com") ∧
    Org.createUser (Except.ok [1, 2, 3]) (fun form => Except.ok (form.password.length))
      "u@x.com" = Except.ok 3 := by
  refine ⟨?_, ?_, ?_⟩
  · have h1 := C6_identity_materialization.1 (fun e => if e = "a@x.com" then some 7 else none)
      none (fun _ => Except.ok 9) ⟨Org.ChangeType.remove, ⟨0, "gone@x.com", "Viewer"⟩⟩
      [⟨Org.ChangeType.add, ⟨0, "a@x.com", "Admin"⟩⟩] rfl (by simp)
    have h5 := C6_identity_materialization.2.2.2.2.1
      (fun e => if e = "a@x.com" then some 7 else none) none (fun _ => Except.ok 9)
      [⟨Org.ChangeType.add, ⟨0, "a@x.com", "Admin"⟩⟩]
      (by intro c hc hne; simp at hc; subst hc; simp)
    rw [h1, h5]
    simp [Org.setId]
  · exact C6_identity_materialization.2.1 (fun _ => none) (fun _ => Except.ok 9)
      ⟨Org.ChangeType.add, ⟨0, "b@x.com", "Editor"⟩⟩ [] (by simp) rfl
  · have h6 := C6_identity_materialization.2.2.2.2.2.1 [1, 2, 3]
      (fun form => Except.ok (form.password.length)) "u@x.com"
    rw [h6]
    rfl

theorem cfgPass_filter_add (s : List (String × Org.OrgUser)) :
    ∀ c : List (String × Org.OrgUser),
      ((c.filterMap fun p => match Org.lookupUser s p.2.email with
          | none => some (⟨Org.ChangeType.add, p.2⟩ : Org.UserChange)
          | some sUser =>
            if sUser.role ≠ p.2.role then some ⟨Org.ChangeType.update, p.2⟩ else none).filter
        fun ch => decide (ch.type = Org.ChangeType.add)) =
      (c.filter fun p => (Org.lookupUser s p.2.email).isNone).map
        fun p => ⟨Org.ChangeType.add, p.2⟩ := by
  intro c
  induction c with
  | nil => rfl
  | cons p rest ih =>
    simp only [ne_eq, ite_not] at ih
    cases h : Org.lookupUser s p.2.email with
    | none => simp [List.filterMap_cons, h, List.filter_cons, ih]
    | some u =>
      by_cases hr : u.role = p.2.role <;>
        simp [List.filterMap_cons, h, hr, List.filter_cons, ih]

theorem cfgPass_filter_update (s : List (String × Org.OrgUser)) :
    ∀ c : List (String × Org.OrgUser),
      ((c.filterMap fun p => match Org.lookupUser s p.2.email with
          | none => some (⟨Org.ChangeType.add, p.2⟩ : Org.UserChange)
          | some sUser =>
            if sUser.role ≠ p.2.role then some ⟨Org.ChangeType.update, p.2⟩ else none).filter
        fun ch => decide (ch.type = Org.ChangeType.update)) =
      (c.filter fun p => match Org.lookupUser s p.2.email with
          | some u => decide (u.role ≠ p.2.role)
          | none => false).map
        fun p => ⟨Org.ChangeType.update, p.2⟩ := by
  intro c
  induction c with
  | nil => rfl
  | cons p rest ih =>
    simp only [ne_eq, ite_not, decide_not] at ih
    cases h : Org.lookupUser s p.2.email with
    | none => simp [List.filterMap_cons, h, List.filter_cons, ih]
    | some u =>
      by_cases hr : u.role = p.2.role <;>
        simp [List.filterMap_cons, h, hr, List.filter_cons, ih]

theorem cfgPass_filter_remove (s : List (String × Org.OrgUser))
    (c : List (String × Org.OrgUser)) :
    ((c.filterMap fun p => match Org.lookupUser s p.2.email with
        | none => some (⟨Org.ChangeType.add, p.2⟩ : Org.UserChange)
        | some sUser =>
          if sUser.role ≠ p.2.role then some ⟨Org.ChangeType.update, p.2⟩ else none).filter
      fun ch => decide (ch.type = Org.ChangeType.remove)) = [] := by
  rw [List.filter_eq_nil_iff]
  intro ch hch
  obtain ⟨p, hp, hfp⟩ := List.mem_filterMap.mp hch
  cases h : Org.lookupUser s p.2.email with
  | none =>
    rw [h] at hfp
    cases hfp
    simp
  | some u =>
    rw [h] at hfp
    by_cases hr : u.role = p.2.role
    · simp [hr] at hfp
    · simp only [hr, ne_eq, not_false_iff, if_pos, if_true] at hfp
      cases hfp
      simp

theorem statePass_filter_remove (c : List (String × Org.OrgUser)) :
    ∀ s : List (String × Org.OrgUser),
      ((s.filterMap fun p => match Org.lookupUser c p.2.email with
          | none => some (⟨Org.ChangeType.remove, p.2⟩ : Org.UserChange)
          | some _ => none).filter fun ch => decide (ch.type = Org.ChangeType.remove)) =
      (s.filter fun p => (Org.lookupUser c p.2.email).isNone).map
        fun p => ⟨Org.ChangeType.remove, p.2⟩ := by
  intro s
  induction s with
  | nil => rfl
  | cons p rest ih =>
    cases h : Org.lookupUser c p.2.email with
    | none => simp [List.filterMap_cons, h, List.filter_cons, ih]
    | some u => simp [List.filterMap_cons, h, List.filter_cons, ih]

theorem statePass_filter_other (c : List (String × Org.OrgUser))
    (s : List (String × Org.OrgUser)) (t : Org.ChangeType)
    (ht : t ≠ Org.ChangeType.remove) :
    ((s.filterMap fun p => match Org.lookupUser c p.2.email with
        | none => some (⟨Org.ChangeType.remove, p.2⟩ : Org.UserChange)
        | some _ => none).filter fun ch => decide (ch.type = t)) = [] := by
  rw [List.filter_eq_nil_iff]
  intro ch hch
  obtain ⟨p, hp, hfp⟩ := List.mem_filterMap.mp hch
  cases h : Org.lookupUser c p.2.email with
  | none =>
    rw [h] at hfp
    cases hfp
    simpa using fun heq => ht heq.symm
  | some u =>
    rw [h] at hfp
    cases hfp

/-- C5: the changes emitted by `userChanges(stateful, desired)` are
exactly: one `Add` per desired entry whose key is absent from the
stateful map (in desired order), one `Update` per desired entry present
in the stateful map with a different role, and one `Remove` per stateful
entry whose key is absent from the desired map — and nothing else, since
the three filters by change type partition the output; consequently
`userChanges(S, S)` is empty for a keyed map `S` (distinct keys, each
entry keyed by its email), an empty stateful map yields only `Add`s (one
per desired entry), and an empty desired map yields only `Remove`s. -/
theorem C5_membership_delta :
    (∀ s c, ((Org.userChanges s c).filter fun ch => decide (ch.type = Org.ChangeType.add)) =
      (c.filter fun p => (Org.lookupUser s p.2.email).isNone).map
        fun p => ⟨Org.ChangeType.add, p.2⟩) ∧
    (∀ s c, ((Org.userChanges s c).filter fun ch => decide (ch.type = Org.ChangeType.update)) =
      (c.filter fun p => match Org.lookupUser s p.2.email with
          | some u => decide (u.role ≠ p.2.role)
          | none => false).map
        fun p => ⟨Org.ChangeType.update, p.2⟩) ∧
    (∀ s c, ((Org.userChanges s c).filter fun ch => decide (ch.type = Org.ChangeType.remove)) =
      (s.filter fun p => (Org.lookupUser c p.2.email).isNone).map
        fun p => ⟨Org.ChangeType.remove, p.2⟩) ∧
    (∀ s : List (String × Org.OrgUser), (∀ p ∈ s, p.1 = p.2.email) →
      (s.map Prod.fst).Nodup → Org.userChanges s s = []) ∧
    (∀ c, Org.userChanges [] c = c.map fun p => ⟨Org.ChangeType.add, p.2⟩) ∧
    (∀ s, Org.userChanges s [] = s.map fun p => ⟨Org.ChangeType.remove, p.2⟩) := by
  refine ⟨?_, ?_, ?_, ?_, ?_, ?_⟩
  · intro s c
    unfold Org.userChanges
    rw [List.filter_append, cfgPass_filter_add s c,
      statePass_filter_other c s Org.ChangeType.add (by simp)]
    simp
  · intro s c
    unfold Org.userChanges
    rw [List.filter_append, cfgPass_filter_update s c,
      statePass_filter_other c s Org.ChangeType.update (by simp)]
    simp
  · intro s c
    unfold Org.userChanges
    rw [List.filter_append, cfgPass_filter_remove s c, statePass_filter_remove c s]
    simp
  · intro s hkeyed hnd
    have h1 : ∀ p ∈ s, Org.lookupUser s p.2.email = some p.2 := by
      intro p hp
      have := goMapGet_self s hnd p hp
      rw [Org.lookupUser, ← hkeyed p hp]
      exact this
    have hcfg : (s.filterMap fun p => match Org.lookupUser s p.2.email with
        | none => some (⟨Org.ChangeType.add, p.2⟩ : Org.UserChange)
        | some sUser =>
          if sUser.role ≠ p.2.role then some ⟨Org.ChangeType.update, p.2⟩ else none) = [] := by
      rw [List.filterMap_eq_nil_iff]
      intro p hp
      rw [h1 p hp]
      simp
    have hstate : (s.filterMap fun p => match Org.lookupUser s p.2.email with
        | none => some (⟨Org.ChangeType.remove, p.2⟩ : Org.UserChange)
        | some _ => none) = [] := by
      rw [List.filterMap_eq_nil_iff]
      intro p hp
      rw [h1 p hp]
    unfold Org.userChanges
    rw [hcfg, hstate]
    rfl
  · intro c
    induction c with
    | nil => rfl
    | cons p rest ih =>
      simp only [Org.userChanges, List.filterMap_nil, List.append_nil] at ih ⊢
      simp only [Org.lookupUser, goMapGet] at ih ⊢
      simp [List.filterMap_cons, ih]
  · intro s
    induction s with
    | nil => rfl
    | cons p rest ih =>
      simp only [Org.userChanges, List.filterMap_nil, List.nil_append] at ih ⊢
      simp only [Org.lookupUser, goMapGet] at ih ⊢
      simp [List.filterMap_cons, ih]

/-- C5 witness: for a concrete one-entry keyed map `S`,
`userChanges(S, S)` is empty, and for a concrete stateful/desired pair
the `Add` changes are exactly the desired-minus-stateful entries. -/
theorem C5_membership_delta_witness :
    Org.userChanges [("a@x.com", ⟨1, "a@x.com", "Admin"⟩)]
      [("a@x.com", ⟨1, "a@x.com", "Admin"⟩)] = [] ∧
    ((Org.userChanges [("a@x.com", ⟨1, "a@x.com", "Admin"⟩)]
        [("a@x.com", ⟨0, "a@x.com", "Editor"⟩), ("b@x.com", ⟨0, "b@x.com", "Admin"⟩)]).filter
      fun ch => decide (ch.type = Org.ChangeType.add)) =
      [⟨Org.ChangeType.add, ⟨0, "b@x.com", "Admin"⟩⟩] := by
  constructor
  · exact C5_membership_delta.2.2.2.1 [("a@x.com", ⟨1, "a@x.com", "Admin"⟩)]
      (by intro p hp; simp at hp; subst hp; rfl) (by simp)
  · have h := C5_membership_delta.1 [("a@x.com", ⟨1, "a@x.com", "Admin"⟩)]
      [("a@x.com", ⟨0, "a@x.com", "Editor"⟩), ("b@x.com", ⟨0, "b@x.com", "Admin"⟩)]
    rw [h]
    simp [Org.lookupUser, goMapGet]

theorem cmpMapEntries_scalar_sound (a : List (String × GoVal)) :
    ∀ d : List (String × GoVal), (∀ p ∈ d, isScalar p.2 = true) →
      cmpMapEntries d a = CmpResult.ok true →
      ∀ p ∈ d, ∃ w, lookupVal a p.1 = some w ∧ compareComparable p.2 w = some (true, true) := by
  intro d
  induction d with
  | nil => intro _ _ p hp; cases hp
  | cons q rest ih =>
    intro hsc hok p hp
    obtain ⟨key, value⟩ := q
    simp only [cmpMapEntries] at hok
    cases hl : lookupVal a key with
    | none => simp only [hl] at hok; simp at hok
    | some w =>
      cases hcc : compareComparable value w with
      | none => simp only [hl, hcc] at hok; exact CmpResult.noConfusion hok
      | some pr =>
        obtain ⟨eq, ok⟩ := pr
        cases ok with
        | true =>
          cases eq with
          | false =>
            simp only [hl, hcc] at hok
            simp at hok
          | true =>
            simp only [hl, hcc, if_true] at hok
            rcases List.mem_cons.mp hp with rfl | hp
            · exact ⟨w, hl, hcc⟩
            · exact ih (fun q hq => hsc q (List.mem_cons_of_mem _ hq)) hok p hp
        | false =>
          have hs : isScalar value = true := hsc (key, value) (by simp)
          exfalso
          cases value with
          | vNull => exact Bool.noConfusion hs
          | vMap m1 => exact Bool.noConfusion hs
          | vSlice s1 => exact Bool.noConfusion hs
          | vBool b => simp only [hl, hcc] at hok; split at hok <;> simp at hok
          | vInt n => simp only [hl, hcc] at hok; split at hok <;> simp at hok
          | vFloat q => simp only [hl, hcc] at hok; split at hok <;> simp at hok
          | vStr t => simp only [hl, hcc] at hok; split at hok <;> simp at hok

theorem cmpSliceElems_scalar_sound :
    ∀ (d a : List GoVal), d.length = a.length → (∀ v ∈ d, isScalar v = true) →
      cmpSliceElems d a = CmpResult.ok true →
      List.Forall₂ (fun v w => compareComparable v w = some (true, true)) d a := by
  intro d
  induction d with
  | nil =>
    intro a hlen _ _
    cases a with
    | nil => exact List.Forall₂.nil
    | cons w ws => simp only [List.length_nil, List.length_cons] at hlen; omega
  | cons v rest ih =>
    intro a hlen hsc hok
    cases a with
    | nil => simp only [List.length_nil, List.length_cons] at hlen; omega
    | cons w ws =>
      have hs : isScalar v = true := hsc v (by simp)
      have hstep : cmpSliceElems (v :: rest) (w :: ws) =
          match compareComparable v w with
          | none => CmpResult.crash
          | some (equal, true) =>
            if equal = true then cmpSliceElems rest ws else CmpResult.ok false
          | some (_, false) => CmpResult.err := by
        cases v with
        | vNull => exact Bool.noConfusion hs
        | vMap m1 => exact Bool.noConfusion hs
        | vSlice s1 => exact Bool.noConfusion hs
        | vBool b =>
          exact cmpSliceElems.eq_7 _ _ _ _ (fun _ h => GoVal.noConfusion h)
            (fun _ h => GoVal.noConfusion h)
        | vInt n =>
          exact cmpSliceElems.eq_7 _ _ _ _ (fun _ h => GoVal.noConfusion h)
            (fun _ h => GoVal.noConfusion h)
        | vFloat q =>
          exact cmpSliceElems.eq_7 _ _ _ _ (fun _ h => GoVal.noConfusion h)
            (fun _ h => GoVal.noConfusion h)
        | vStr t =>
          exact cmpSliceElems.eq_7 _ _ _ _ (fun _ h => GoVal.noConfusion h)
            (fun _ h => GoVal.noConfusion h)
      rw [hstep] at hok
      cases hcc : compareComparable v w with
      | none => simp only [hcc] at hok; exact CmpResult.noConfusion hok
      | some pr =>
        obtain ⟨eq, ok⟩ := pr
        cases ok with
        | true =>
          cases eq with
          | false => simp only [hcc] at hok; simp at hok
          | true =>
            simp only [hcc, if_true] at hok
            exact List.Forall₂.cons hcc
              (ih ws (by simpa using hlen) (fun u hu => hsc u (List.mem_cons_of_mem _ hu)) hok)
        | false => simp only [hcc] at hok; exact CmpResult.noConfusion hok

/-- C2 (amended): restricted to mappings and sequences whose desired
values are all scalars — so that no recursion into a nested container is
reached — the claim holds as stated: `CompareMap` returns true only if
the two key sets have equal cardinality, every desired key exists in the
actual map, and the values at every key compare equal; `CompareSlice`
returns true only if the lengths are equal and the elements compare
equal position by position, order-sensitively.  (Without that
restriction the claim fails: on reaching a key or element whose value is
a nested mapping or sequence, both functions return that single
recursive comparison's result immediately, skipping every remaining key
or element — see the counterexample.) -/
theorem C2_scalar_only_if :
    (∀ d a : List (String × GoVal), (∀ p ∈ d, isScalar p.2 = true) →
      CompareMap d a = CmpResult.ok true →
      d.length = a.length ∧
        ∀ p ∈ d, ∃ w, lookupVal a p.1 = some w ∧
          compareComparable p.2 w = some (true, true)) ∧
    (∀ d a : List GoVal, (∀ v ∈ d, isScalar v = true) →
      CompareSlice d a = CmpResult.ok true →
      d.length = a.length ∧
        List.Forall₂ (fun v w => compareComparable v w = some (true, true)) d a) := by
  constructor
  · intro d a hsc hok
    have hlen : d.length = a.length := by
      by_contra h
      simp only [CompareMap, h, if_false] at hok
      simp at hok
    refine ⟨hlen, ?_⟩
    have hentries : cmpMapEntries d a = CmpResult.ok true := by
      simpa only [CompareMap, hlen, if_true] using hok
    exact cmpMapEntries_scalar_sound a d hsc hentries
  · intro d a hsc hok
    have hlen : d.length = a.length := by
      by_contra h
      simp only [CompareSlice, h, if_false] at hok
      simp at hok
    refine ⟨hlen, ?_⟩
    have helems : cmpSliceElems d a = CmpResult.ok true := by
      simpa only [CompareSlice, hlen, if_true] using hok
    exact cmpSliceElems_scalar_sound d a hlen hsc helems

/-- C2 witness: a two-key scalar mapping pair that `CompareMap` accepts
satisfies the characterization — the key set sizes agree and the value
at "b" is found and compares equal. -/
theorem C2_scalar_only_if_witness :
    ([("a", GoVal.vInt 1), ("b", GoVal.vStr "x")] : List (String × GoVal)).length =
      ([("a", GoVal.vFloat 1), ("b", GoVal.vStr "x")] : List (String × GoVal)).length ∧
    lookupVal [("a", GoVal.vFloat 1), ("b", GoVal.vStr "x")] "b" = some (GoVal.vStr "x") ∧
    compareComparable (GoVal.vStr "x") (GoVal.vStr "x") = some (true, true) := by
  have h := C2_scalar_only_if.1 [("a", GoVal.vInt 1), ("b", GoVal.vStr "x")]
    [("a", GoVal.vFloat 1), ("b", GoVal.vStr "x")]
    (by intro p hp; rcases List.mem_cons.mp hp with rfl | hp
        · rfl
        · simp at hp; subst hp; rfl)
    (by simp [CompareMap, cmpMapEntries, compareComparable, kindOf, comparableKind,
          convertibleTo, convertTo, scalarEqSameKind, lookupVal, goMapGet, ratTrunc]
        decide)
  obtain ⟨w, hw, hcc⟩ := h.2 ("b", GoVal.vStr "x") (by simp)
  have hw2 : w = GoVal.vStr "x" := by
    simpa [lookupVal, goMapGet] using hw.symm
  subst hw2
  exact ⟨h.1, hw, hcc⟩

/-- C2 counterexample: the desired and actual mappings differ at key "b"
(2 versus 3) and the desired sequence differs from the actual at index 1,
yet both comparisons return true, because the recursion into the nested
container at the first key/element returns immediately and the remaining
entries are never examined. -/
theorem C2_counterexample :
    CompareMap [("a", GoVal.vMap [("x", GoVal.vInt 1)]), ("b", GoVal.vInt 2)]
      [("a", GoVal.vMap [("x", GoVal.vInt 1)]), ("b", GoVal.vInt 3)] = CmpResult.ok true ∧
    lookupVal [("a", GoVal.vMap [("x", GoVal.vInt 1)]), ("b", GoVal.vInt 2)] "b" =
      some (GoVal.vInt 2) ∧
    lookupVal [("a", GoVal.vMap [("x", GoVal.vInt 1)]), ("b", GoVal.vInt 3)] "b" =
      some (GoVal.vInt 3) ∧
    CompareSlice [GoVal.vSlice [GoVal.vInt 1], GoVal.vInt 2]
      [GoVal.vSlice [GoVal.vInt 1], GoVal.vInt 3] = CmpResult.ok true := by
  refine ⟨?_, ?_, ?_, ?_⟩
  · simp [CompareMap, cmpMapEntries, compareComparable, kindOf, comparableKind,
      convertibleTo, convertTo, scalarEqSameKind, lookupVal, goMapGet]
  · simp [lookupVal, goMapGet]
  · simp [lookupVal, goMapGet]
  · simp [CompareSlice, cmpSliceElems, CompareMap, cmpMapEntries, compareComparable,
      kindOf, comparableKind, convertibleTo, convertTo, scalarEqSameKind]

theorem compareComparable_self (v : GoVal) (h : isScalar v = true) :
    compareComparable v v = some (true, true) := by
  cases v with
  | vNull => exact Bool.noConfusion h
  | vMap m => exact Bool.noConfusion h
  | vSlice s => exact Bool.noConfusion h
  | vBool b =>
    simp [compareComparable, kindOf, comparableKind, convertibleTo, convertTo, scalarEqSameKind]
  | vInt n =>
    simp [compareComparable, kindOf, comparableKind, convertibleTo, convertTo, scalarEqSameKind]
  | vFloat q =>
    simp [compareComparable, kindOf, comparableKind, convertibleTo, convertTo, scalarEqSameKind]
  | vStr t =>
    simp [compareComparable, kindOf, comparableKind, convertibleTo, convertTo, scalarEqSameKind]

/-- The reflexivity statement attached to a value: self-comparison of a
mapping or sequence through `CompareMap`/`CompareSlice` yields
`(true, nil)`, and self-comparison of a scalar is decided equal. -/
def ReflStmt : GoVal → Prop
  | .vMap m => CompareMap m m = CmpResult.ok true
  | .vSlice s => CompareSlice s s = CmpResult.ok true
  | v => compareComparable v v = some (true, true)

theorem wfList_mem : ∀ xs : List GoVal, wfList xs = true → ∀ u ∈ xs, wfVal u = true := by
  intro xs
  induction xs with
  | nil => intro _ u hu; cases hu
  | cons v rest ih =>
    intro h u hu
    simp only [wfList, Bool.and_eq_true] at h
    rcases List.mem_cons.mp hu with rfl | hu
    · exact h.1
    · exact ih h.2 u hu

theorem wfEntries_mem : ∀ m : List (String × GoVal), wfEntries m = true →
    ∀ p ∈ m, wfVal p.2 = true := by
  intro m
  induction m with
  | nil => intro _ p hp; cases hp
  | cons q rest ih =>
    intro h p hp
    obtain ⟨k, v⟩ := q
    simp only [wfEntries, Bool.and_eq_true] at h
    rcases List.mem_cons.mp hp with rfl | hp
    · exact h.1
    · exact ih h.2 p hp

theorem cmpSliceElems_refl : ∀ xs : List GoVal,
    (∀ u ∈ xs, wfVal u = true ∧ ReflStmt u) →
    cmpSliceElems xs xs = CmpResult.ok true := by
  intro xs
  induction xs with
  | nil => intro _; simp [cmpSliceElems]
  | cons v rest ih =>
    intro hR
    have hv := hR v (by simp)
    have htail : ∀ u ∈ rest, wfVal u = true ∧ ReflStmt u :=
      fun u hu => hR u (List.mem_cons_of_mem _ hu)
    cases v with
    | vNull => exact absurd hv.1 (by simp [wfVal])
    | vBool b =>
      have hc : compareComparable (GoVal.vBool b) (GoVal.vBool b) = some (true, true) :=
        compareComparable_self _ rfl
      rw [cmpSliceElems.eq_7 _ _ _ _ (fun _ h => GoVal.noConfusion h)
        (fun _ h => GoVal.noConfusion h)]
      simp only [hc, if_true]
      exact ih htail
    | vInt n =>
      have hc : compareComparable (GoVal.vInt n) (GoVal.vInt n) = some (true, true) :=
        compareComparable_self _ rfl
      rw [cmpSliceElems.eq_7 _ _ _ _ (fun _ h => GoVal.noConfusion h)
        (fun _ h => GoVal.noConfusion h)]
      simp only [hc, if_true]
      exact ih htail
    | vFloat q =>
      have hc : compareComparable (GoVal.vFloat q) (GoVal.vFloat q) = some (true, true) :=
        compareComparable_self _ rfl
      rw [cmpSliceElems.eq_7 _ _ _ _ (fun _ h => GoVal.noConfusion h)
        (fun _ h => GoVal.noConfusion h)]
      simp only [hc, if_true]
      exact ih htail
    | vStr t =>
      have hc : compareComparable (GoVal.vStr t) (GoVal.vStr t) = some (true, true) :=
        compareComparable_self _ rfl
      rw [cmpSliceElems.eq_7 _ _ _ _ (fun _ h => GoVal.noConfusion h)
        (fun _ h => GoVal.noConfusion h)]
      simp only [hc, if_true]
      exact ih htail
    | vMap m1 =>
      have hc : CompareMap m1 m1 = CmpResult.ok true := hv.2
      rw [cmpSliceElems.eq_3]
      simp only [show compareComparable (GoVal.vMap m1) (GoVal.vMap m1) =
        some (false, false) from rfl]
      exact hc
    | vSlice s1 =>
      have hc : CompareSlice s1 s1 = CmpResult.ok true := hv.2
      rw [cmpSliceElems.eq_5]
      simp only [show compareComparable (GoVal.vSlice s1) (GoVal.vSlice s1) =
        some (false, false) from rfl]
      exact hc

theorem cmpMapEntries_refl (whole : List (String × GoVal))
    (hlook : ∀ p ∈ whole, lookupVal whole p.1 = some p.2)
    (hR : ∀ p ∈ whole, wfVal p.2 = true ∧ ReflStmt p.2) :
    ∀ rest : List (String × GoVal), (∀ p ∈ rest, p ∈ whole) →
      cmpMapEntries rest whole = CmpResult.ok true := by
  intro rest
  induction rest with
  | nil => intro _; simp [cmpMapEntries]
  | cons q rest' ih =>
    intro hsub
    obtain ⟨key, value⟩ := q
    have hmem := hsub (key, value) (by simp)
    have hl : lookupVal whole key = some value := hlook _ hmem
    have hwfr := hR _ hmem
    have htail := ih fun p hp => hsub p (List.mem_cons_of_mem _ hp)
    simp only [cmpMapEntries, hl]
    cases value with
    | vNull => exact absurd hwfr.1 (by simp [wfVal])
    | vBool b =>
      simp [compareComparable_self (GoVal.vBool b) rfl, htail]
    | vInt n =>
      simp [compareComparable_self (GoVal.vInt n) rfl, htail]
    | vFloat q' =>
      simp [compareComparable_self (GoVal.vFloat q') rfl, htail]
    | vStr t =>
      simp [compareComparable_self (GoVal.vStr t) rfl, htail]
    | vMap m1 =>
      have hc : CompareMap m1 m1 = CmpResult.ok true := hwfr.2
      simp only [show compareComparable (GoVal.vMap m1) (GoVal.vMap m1) =
        some (false, false) from rfl]
      simp [hc]
    | vSlice s1 =>
      have hc : CompareSlice s1 s1 = CmpResult.ok true := hwfr.2
      simp only [show compareComparable (GoVal.vSlice s1) (GoVal.vSlice s1) =
        some (false, false) from rfl]
      simp [hc]

theorem reflAux : ∀ (n : Nat) (v : GoVal), sizeOf v ≤ n → wfVal v = true → ReflStmt v := by
  intro n
  induction n with
  | zero =>
    intro v hv _
    exfalso
    cases v <;> simp at hv
  | succ n ih =>
    intro v hv hwf
    cases v with
    | vNull => exact absurd hwf (by simp [wfVal])
    | vBool b => exact compareComparable_self _ rfl
    | vInt m => exact compareComparable_self _ rfl
    | vFloat q => exact compareComparable_self _ rfl
    | vStr t => exact compareComparable_self _ rfl
    | vSlice xs =>
      show CompareSlice xs xs = CmpResult.ok true
      have hwfl : wfList xs = true := by simpa [wfVal] using hwf
      have hR : ∀ u ∈ xs, wfVal u = true ∧ ReflStmt u := by
        intro u hu
        have hw := wfList_mem xs hwfl u hu
        refine ⟨hw, ih u ?_ hw⟩
        have h1 : sizeOf u < sizeOf xs := List.sizeOf_lt_of_mem hu
        have h2 : sizeOf (GoVal.vSlice xs) = 1 + sizeOf xs := by simp
        omega
      have h := cmpSliceElems_refl xs hR
      simp [CompareSlice, h]
    | vMap m =>
      show CompareMap m m = CmpResult.ok true
      have hwf' : (m.map Prod.fst).Nodup ∧ wfEntries m = true := by
        have h := hwf
        simp only [wfVal, Bool.and_eq_true, decide_eq_true_eq] at h
        exact h
      have hlook : ∀ p ∈ m, lookupVal m p.1 = some p.2 :=
        fun p hp => goMapGet_self m hwf'.1 p hp
      have hR : ∀ p ∈ m, wfVal p.2 = true ∧ ReflStmt p.2 := by
        intro p hp
        have hw := wfEntries_mem m hwf'.2 p hp
        refine ⟨hw, ih p.2 ?_ hw⟩
        have h1 : sizeOf p < sizeOf m := List.sizeOf_lt_of_mem hp
        have h2 : sizeOf (GoVal.vMap m) = 1 + sizeOf m := by simp
        have h3 : sizeOf p = 1 + sizeOf p.1 + sizeOf p.2 := by
          obtain ⟨k, u⟩ := p
          simp
        omega
      have h := cmpMapEntries_refl m hlook hR m (fun p hp => hp)
      simp [CompareMap, h]

/-- C4 (amended): self-comparison of a mapping yields `(true, nil)` for
every well-formed mapping — one whose entries contain no null (nil
interface) values and whose nested mappings all have distinct keys.  For
a mapping with a null entry the claim fails: the comparator dereferences
the nil `reflect.Type` and panics instead of returning true — see the
counterexample. -/
theorem C4_reflexivity (m : List (String × GoVal))
    (h : wfVal (GoVal.vMap m) = true) :
    CompareMap m m = CmpResult.ok true :=
  reflAux (sizeOf (GoVal.vMap m)) (GoVal.vMap m) le_rfl h

/-- C4 witness: a concrete nested mapping — scalars of every kind, a
nested mapping and a nested sequence — compares equal to itself. -/
theorem C4_reflexivity_witness :
    wfVal (GoVal.vMap [("a", GoVal.vMap [("x", GoVal.vInt 1)]),
      ("b", GoVal.vSlice [GoVal.vStr "s", GoVal.vBool true]),
      ("c", GoVal.vFloat (3 / 2))]) = true ∧
    CompareMap [("a", GoVal.vMap [("x", GoVal.vInt 1)]),
        ("b", GoVal.vSlice [GoVal.vStr "s", GoVal.vBool true]),
        ("c", GoVal.vFloat (3 / 2))]
      [("a", GoVal.vMap [("x", GoVal.vInt 1)]),
        ("b", GoVal.vSlice [GoVal.vStr "s", GoVal.vBool true]),
        ("c", GoVal.vFloat (3 / 2))] = CmpResult.ok true := by
  have hwf : wfVal (GoVal.vMap [("a", GoVal.vMap [("x", GoVal.vInt 1)]),
      ("b", GoVal.vSlice [GoVal.vStr "s", GoVal.vBool true]),
      ("c", GoVal.vFloat (3 / 2))]) = true := by
    simp [wfVal, wfEntries, wfList]
  exact ⟨hwf, C4_reflexivity _ hwf⟩

/-- C4 counterexample: a mapping whose single entry is null compared
with itself does not yield `(true, nil)`: the comparator panics on the
nil interface value (`reflect.TypeOf` is nil and `Comparable()` is
called on it). -/
theorem C4_counterexample :
    CompareMap [("a", GoVal.vNull)] [("a", GoVal.vNull)] = CmpResult.crash := by
  simp [CompareMap, cmpMapEntries, compareComparable, kindOf, lookupVal, goMapGet]
